import Mathlib

/-!
Verification development for the OMOMatrix client-side session/sync core.

The Python sources under consideration are shallow-embedded here:

* `src/matrix/client.py` — session restore/logout, profile cache, and the
  `get_hierarchy` space/room tree derivation;
* `src/matrix/storage.py` — the single-record credential store;
* `src/matrix/media_manager.py` and `src/matrix/avatar_manager.py` — the
  fetch-and-cache layer (path cache, negative cache, single-flight table);
* the SAS device-verification state machine of the design document
  (the repository contains only the GUI dialog driving it, so the machine
  itself is modelled from the specification text).

Python dictionaries are embedded as association lists with first-match
lookup; dictionary assignment replaces in place, `setdefault(k, []).append`
appends at the end of the entry.  `list(set(xs))` is modelled as `xs.dedup`
(the hash-dependent iteration order of a Python set is unspecified; every
property stated below is insensitive to that order).  Python's stable
`list.sort(key=...)` is modelled by `List.insertionSort` over the key
preorder; stable sorts by the same key agree on all inputs whose keys are
pairwise distinct, and the properties below depend only on membership and
sortedness.  MD5 cache-file naming is modelled by an injective encoding of
the cache key.
-/

namespace OmoMatrix

/-! ### Association-list dictionaries -/

/-- Dictionary read with default, `d.get(k)` followed by a truthiness test:
`dget m k = []` exactly when `k` is absent or maps to the empty list. -/
def dget (m : List (String × List String)) (k : String) : List String :=
  (List.lookup k m).getD []

/-- Dictionary assignment `m[k] = v`: replace in place, or append a new entry. -/
def dinsert {α : Type} (m : List (String × α)) (k : String) (v : α) :
    List (String × α) :=
  match m with
  | [] => [(k, v)]
  | (k', v') :: rest =>
      if k' = k then (k, v) :: rest else (k', v') :: dinsert rest k v

/-- The idiom `m.setdefault(k, []).append(v)`. -/
def dappend (m : List (String × List String)) (k : String) (v : String) :
    List (String × List String) :=
  match m with
  | [] => [(k, [v])]
  | (k', vs) :: rest =>
      if k' = k then (k', vs ++ [v]) :: rest else (k', vs) :: dappend rest k v

/-- Dictionary removal `m.pop(k, None)` (a dict holds each key once). -/
def dremove {α : Type} (m : List (String × α)) (k : String) :
    List (String × α) :=
  m.filter (fun e => e.1 ≠ k)

/-- Set insertion `s.add(x)` for a set represented as a duplicate-free list. -/
def saddElem (s : List String) (x : String) : List String :=
  if x ∈ s then s else s ++ [x]

/-! ### SAS device-verification state machine (§4.3 of the design document)

Modelled from the spec: the repository's `VerificationDialog`
(`src/gui/verification_dialog.py`) merely drives `confirm_sas` /
`cancel_verification`, and no module under `src/` implements those methods
or the per-transaction state machine; the machine below follows §4.3:
states `Requested → Started → KeyExchanged → MacExchanged → Done`,
`Cancelled` reachable from every non-terminal state, and any message
arriving out of causal order is treated as protocol-level state corruption
and cancels the transaction rather than silently accepting it. -/

/-- Verification transaction states (§4.3). -/
inductive VState
  | requested
  | started
  | keyExchanged
  | macExchanged
  | vDone
  | cancelled
deriving DecidableEq, Repr

/-- Inbound to-device verification messages for one transaction. -/
inductive VMsg
  | startMsg
  | keyMsg
  | macMsg
  | doneMsg
  | cancelMsg
deriving DecidableEq, Repr

/-- Modelled from the spec: one transition of the per-transaction machine.
Terminal states absorb; the expected message advances the chain; a
cancellation or any out-of-order message moves to `cancelled`. -/
def vstep (s : VState) (m : VMsg) : VState :=
  match s with
  | .vDone => .vDone
  | .cancelled => .cancelled
  | .requested =>
      match m with
      | .startMsg => .started
      | _ => .cancelled
  | .started =>
      match m with
      | .keyMsg => .keyExchanged
      | _ => .cancelled
  | .keyExchanged =>
      match m with
      | .macMsg => .macExchanged
      | _ => .cancelled
  | .macExchanged =>
      match m with
      | .doneMsg => .vDone
      | _ => .cancelled

/-- Run a transaction from `Requested` over an arrival-ordered message list. -/
def vrun (ms : List VMsg) : VState :=
  ms.foldl vstep .requested

/-! ### Session core: credential storage, restore, logout
(`src/matrix/client.py`, `src/matrix/storage.py`) -/

/-- One persisted credential record (`storage.py`, table `credentials`). -/
structure Creds where
  homeserver : String
  user_id : String
  access_token : String
  device_id : String
deriving DecidableEq, Repr

/-- The underlying `nio.AsyncClient` handle as far as the session core
configures it: constructor arguments plus the assigned access token. -/
structure ClientHandle where
  homeserver : String
  user : String
  device_id : Option String
  access_token : String
deriving DecidableEq, Repr

/-- The mutable session state touched by restore/logout: the optional
client handle and the single persisted credential record. -/
structure SessionState where
  client : Option ClientHandle
  stored : Option Creds
deriving DecidableEq, Repr

/-- Embeds `MatrixClient.restore_session` (`client.py` lines 134–165): load the
stored record; absent means failure; otherwise rebuild the client directly
from the stored fields and assign the stored access token.  The stored
record itself is left untouched. -/
def restore_session (s : SessionState) : Bool × SessionState :=
  match s.stored with
  | none => (false, s)
  | some creds =>
      let cl : ClientHandle :=
        { homeserver := creds.homeserver
          user := creds.user_id
          device_id := some creds.device_id
          access_token := creds.access_token }
      (true, { s with client := some cl })

/-- Externally visible side effects of `MatrixClient.logout`. -/
inductive LogoutAction
  | serverLogout
  | closeClient
  | clearCreds
deriving DecidableEq, Repr

/-- Embeds `MatrixClient.logout` (`client.py` lines 167–180) followed by
`CredentialStorage.clear_credentials` (`storage.py` lines 110–118): when a
client exists, the server-side logout is attempted inside `try/except`
(its failure, `serverFails = true`, is logged and ignored), the `finally`
block closes the client, and the stored record is deleted unconditionally. -/
def logout (s : SessionState) (serverFails : Bool) :
    SessionState × List LogoutAction :=
  match s.client with
  | some _ =>
      let _ := serverFails
      ({ client := none, stored := none },
        [LogoutAction.serverLogout, LogoutAction.closeClient,
          LogoutAction.clearCreds])
  | none =>
      ({ s with stored := none }, [LogoutAction.clearCreds])

/-! ### Kernel-evaluable string operations

The corresponding core `String` functions use byte-position iterators that
the kernel cannot reduce, so the embedding works on the underlying
character lists; the semantics on the (ASCII) identifiers involved is that
of the Python operations they model.  Case folding models `str.lower()`
ASCII-wise. -/

/-- Python `s.startswith(p)`. -/
def pyStartsWith (s p : String) : Bool := p.data.isPrefixOf s.data

/-- Python `c in s` for a single character. -/
def pyContains (s : String) (c : Char) : Bool := s.data.contains c

/-- Python `s.lower()`. -/
def pyToLower (s : String) : String := String.mk (s.data.map Char.toLower)

/-- Python `s[n:]` (by characters). -/
def pyDrop (s : String) (n : Nat) : String := String.mk (s.data.drop n)

/-- The longest prefix whose characters satisfy `p`. -/
def pyTakeWhile (s : String) (p : Char -> Bool) : String :=
  String.mk (s.data.takeWhile p)

/-- Remainder after `pyTakeWhile`. -/
def pyDropWhile (s : String) (p : Char -> Bool) : String :=
  String.mk (s.data.dropWhile p)

/-- Python `s.strip()`: drop leading and trailing whitespace. -/
def pyStrip (s : String) : String :=
  String.mk
    (((s.data.dropWhile Char.isWhitespace).reverse.dropWhile
        Char.isWhitespace).reverse)

/-- Lexicographic comparison by code point on character lists: exactly
Python's `<=` on strings. -/
def charListLE : List Char -> List Char -> Bool
  | [], _ => true
  | _ :: _, [] => false
  | a :: as, b :: bs => if a = b then charListLE as bs else decide (a < b)

/-! ### Room hierarchy resolver (`MatrixClient.get_hierarchy`,
`src/matrix/client.py` lines 329–395) -/

/-- The per-room state `get_hierarchy` reads off a `nio.MatrixRoom`. -/
structure Room where
  display_name : Option String := none
  room_type : Option String := none
  children : List String := []
  parents : List String := []
deriving DecidableEq, Repr

/-- The snapshot `self.client.rooms`: room id to room state, in insertion order. -/
abbrev RoomSnapshot := List (String × Room)

/-- The dictionary returned by `get_hierarchy`. -/
structure Hierarchy where
  spaces : List (String × Bool)
  children : List (String × List String)
  top_level_spaces : List String
  orphans : List String
deriving DecidableEq, Repr

/-- The joined set `joined_ids = set(rooms.keys())`. -/
def joined_ids (rooms : RoomSnapshot) : List String := rooms.map Prod.fst

/-- The loop body over `rooms.items()` that accumulates
`(children_map, parents_map)`: the child direction assigns
`children_map[room_id] = valid_children` and appends `room_id` to each
child's parent list; the parent direction appends through `setdefault` in
both maps. -/
def processRoom (joined : List String)
    (maps : List (String × List String) × List (String × List String))
    (entry : String × Room) :
    List (String × List String) × List (String × List String) :=
  let rid := entry.1
  let room := entry.2
  let valid_children := room.children.filter (fun cid => joined.contains cid)
  let maps1 :=
    if valid_children.isEmpty then maps
    else
      (dinsert maps.1 rid valid_children,
        valid_children.foldl (fun pm cid => dappend pm cid rid) maps.2)
  let valid_parents := room.parents.filter (fun pid => joined.contains pid)
  valid_parents.foldl
    (fun mp pid => (dappend mp.1 pid rid, dappend mp.2 rid pid))
    maps1

/-- The raw `(children_map, parents_map)` pair before deduplication. -/
def rawMaps (rooms : RoomSnapshot) : List (String × List String) × List (String × List String) :=
  rooms.foldl (processRoom (joined_ids rooms)) ([], [])

/-- The `parents_map` local after `list(set(...))` deduplication; it
`get_hierarchy` decides top-level/orphan classification. -/
def parents_map (rooms : RoomSnapshot) : List (String × List String) :=
  (rawMaps rooms).2.map (fun e => (e.1, e.2.dedup))

/-- The sort key: `(room.display_name or rid).lower()` when the room is
found, else `rid.lower()` (Python `or` falls back on an empty name too). -/
def sort_key (rooms : RoomSnapshot) (rid : String) : String :=
  match List.lookup rid rooms with
  | some room =>
      pyToLower
        (match room.display_name with
         | some d => if d = "" then rid else d
         | none => rid)
  | none => pyToLower rid

/-- The ordering used by every `.sort(key=sort_key)` call. -/
def hierLE (rooms : RoomSnapshot) (a b : String) : Prop :=
  charListLE (sort_key rooms a).data (sort_key rooms b).data = true

instance (rooms : RoomSnapshot) : DecidableRel (hierLE rooms) := by
  intro a b
  unfold hierLE
  infer_instance

/-- Embeds `MatrixClient.get_hierarchy`: classify spaces, accumulate both declared
relation directions, deduplicate, pick top-level spaces and orphans as the
rooms without a joined parent, and sort every produced list by
display-name key. -/
def get_hierarchy (rooms : RoomSnapshot) : Hierarchy :=
  let spaces_map := rooms.map (fun e => (e.1, decide (e.2.room_type = some "m.space")))
  let children_map := (rawMaps rooms).1.map (fun e => (e.1, e.2.dedup))
  let pm := parents_map rooms
  let top_level_spaces :=
    (spaces_map.filter (fun e => e.2 && (dget pm e.1).isEmpty)).map Prod.fst
  let orphans :=
    (spaces_map.filter (fun e => !e.2 && (dget pm e.1).isEmpty)).map Prod.fst
  { spaces := spaces_map
    children := children_map.map
      (fun e => (e.1, e.2.insertionSort (hierLE rooms)))
    top_level_spaces := top_level_spaces.insertionSort (hierLE rooms)
    orphans := orphans.insertionSort (hierLE rooms) }

/-- Reachability along the computed children mapping, used to state the
partition property: `Reaches cm a b` when `b` is `a` or a repeated-child
descendant of `a`. -/
inductive Reaches (cm : List (String × List String)) : String → String → Prop
  | refl (a : String) : Reaches cm a a
  | step {a b c : String} (h : Reaches cm a b) (hc : c ∈ dget cm b) :
      Reaches cm a c

/-- The loop over `valid_parents`, updating both maps through `setdefault`. -/
def parentsFold (rid : String) (vp : List String)
    (maps : List (String × List String) × List (String × List String)) :
    List (String × List String) × List (String × List String) :=
  vp.foldl (fun mp pid => (dappend mp.1 pid rid, dappend mp.2 rid pid)) maps

/-- Every edge recorded in `children_map` is mirrored by a nonempty parent
list for its target: the invariant tying the two accumulated maps. -/
def EdgeInv
    (maps : List (String × List String) × List (String × List String)) : Prop :=
  ∀ b r : String, r ∈ dget maps.1 b → dget maps.2 r ≠ []

/-- A fixed two-room snapshot: a plain (non-space) room declaring one child
that declares no parent of its own.  It exhibits the hole in the claimed
two-class partition. -/
def snapA : RoomSnapshot :=
  [("!a:x", { children := ["!b:x"] }), ("!b:x", {})]

/-! ### Media / avatar fetch-and-cache layer
(`src/matrix/media_manager.py`, `src/matrix/avatar_manager.py`)

Both managers share the same state shape: an in-memory path cache keyed by
the `mxc_size` cache key, a negative-result set of mxc references, and the
single-flight table mapping a cache file path to the task downloading it.
The HTTP world is an oracle from URL to response; `ok good` is a 200
response whose body does (`good = true`) or does not decode as an image,
`err c` is a non-200 status `c`, and `exn` is a raised transport error.
The filesystem is a read oracle for `cache_path.exists()` checks. -/

/-- Outcome of one `session.get(url)` as the download code observes it. -/
inductive HttpResp
  | ok (good : Bool)
  | err (code : Nat)
  | exn
deriving DecidableEq, Repr

/-- Shared mutable state of a manager instance. -/
structure MgrState where
  path_cache : List (String × String)
  failure_cache : List String
  active_downloads : List (String × Nat)
deriving DecidableEq, Repr

/-- Result of a `get`/`_download` call: the returned path (or none), the
state left behind, and the URLs fetched over the network, in order. -/
structure DlResult where
  result : Option String
  state : MgrState
  requests : List String
deriving DecidableEq, Repr

/-- Python string interpolation of an optional integer (`None` prints). -/
def optNatStr : Option Nat → String
  | some n => toString n
  | none => "None"

/-- Python truthiness of an optional integer (`None` and `0` are falsy). -/
def truthyNat : Option Nat → Bool
  | some n => decide (n ≠ 0)
  | none => false

/-- Python truthiness of an optional string (`None` and `""` are falsy). -/
def truthyStr : Option String → Bool
  | some s => decide (s ≠ "")
  | none => false

/-- Python `base_url.rstrip("/")`. -/
def rstripSlash (s : String) : String :=
  ((s.toList.reverse.dropWhile (fun c => c = '/')).reverse).asString

/-- Arguments of `MediaManager.get_media`. -/
structure MediaArgs where
  homeserver : String
  mxc_url : String
  width : Option Nat := none
  height : Option Nat := none
  access_token : Option String := none
deriving DecidableEq, Repr

/-- Arguments of `AvatarManager.get_avatar`. -/
structure AvatarArgs where
  homeserver : String
  mxc_url : String
  size : Nat := 64
  access_token : Option String := none
deriving DecidableEq, Repr

/-- Media cache key: the f-string `mxc_width_height`. -/
def media_cache_key (a : MediaArgs) : String :=
  a.mxc_url ++ "_" ++ optNatStr a.width ++ "_" ++ optNatStr a.height

/-- Avatar cache key: the f-string `mxc_size`. -/
def avatar_cache_key (a : AvatarArgs) : String :=
  a.mxc_url ++ "_" ++ toString a.size

/-- Media cache file path; the MD5 hash of the key is modelled by the key
itself (an injective stand-in for an injective-in-practice digest). -/
def media_cache_path (a : MediaArgs) : String :=
  "media/" ++ media_cache_key a ++ ".png"

/-- Avatar cache file path, separately namespaced from general media. -/
def avatar_cache_path (a : AvatarArgs) : String :=
  "avatars/" ++ avatar_cache_key a ++ ".png"

/-- Prepend the https scheme when the homeserver lacks one. -/
def base_url_of (homeserver : String) : String :=
  if pyStartsWith homeserver "http" then homeserver
  else "https://" ++ homeserver

/-- The slice `mxc_url[6:]`, the part after the `mxc://` scheme. -/
def mxc_base (mxc_url : String) : String := pyDrop mxc_url 6

/-- The `"/" in mxc_base` well-formedness test inside `_download`. -/
def mxcHasSlash (mxc_url : String) : Bool := pyContains (mxc_base mxc_url) '/'

/-- First component of `mxc_base.split("/", 1)`. -/
def mxc_server (mxc_url : String) : String :=
  pyTakeWhile (mxc_base mxc_url) (fun c => c != '/')

/-- Second component of `mxc_base.split("/", 1)`. -/
def mxc_media_id (mxc_url : String) : String :=
  pyDrop (pyDropWhile (mxc_base mxc_url) (fun c => c != '/')) 1

/-- Endpoint path component: authenticated shape when a token is truthy,
else the legacy unauthenticated shape. -/
def media_api_path (access_token : Option String) : String :=
  if truthyStr access_token then "/_matrix/client/v1/media"
  else "/_matrix/media/v3"

/-- The media thumbnail URL (`method=scale`). -/
def media_thumb_url (a : MediaArgs) : String :=
  rstripSlash (base_url_of a.homeserver) ++ media_api_path a.access_token ++
    "/thumbnail/" ++ mxc_server a.mxc_url ++ "/" ++ mxc_media_id a.mxc_url ++
    "?width=" ++ optNatStr a.width ++ "&height=" ++ optNatStr a.height ++
    "&method=scale"

/-- The media full-resolution download URL. -/
def media_dl_url (a : MediaArgs) : String :=
  rstripSlash (base_url_of a.homeserver) ++ media_api_path a.access_token ++
    "/download/" ++ mxc_server a.mxc_url ++ "/" ++ mxc_media_id a.mxc_url

/-- The one URL `MediaManager._download` requests: the thumbnail endpoint
when both dimensions are truthy, else the download endpoint. -/
def media_request_url (a : MediaArgs) : String :=
  if truthyNat a.width && truthyNat a.height then media_thumb_url a
  else media_dl_url a

/-- The avatar thumbnail URL (`method=crop`). -/
def avatar_thumb_url (a : AvatarArgs) : String :=
  rstripSlash (base_url_of a.homeserver) ++ media_api_path a.access_token ++
    "/thumbnail/" ++ mxc_server a.mxc_url ++ "/" ++ mxc_media_id a.mxc_url ++
    "?width=" ++ toString a.size ++ "&height=" ++ toString a.size ++
    "&method=crop"

/-- The avatar full-resolution download URL. -/
def avatar_dl_url (a : AvatarArgs) : String :=
  rstripSlash (base_url_of a.homeserver) ++ media_api_path a.access_token ++
    "/download/" ++ mxc_server a.mxc_url ++ "/" ++ mxc_media_id a.mxc_url

/-- The `finally: self._active_downloads.pop(cache_path, None)` wrapper
that runs on every exit path of a download routine. -/
def finally_pop (cache_path : String) (d : DlResult) : DlResult :=
  { d with state :=
      { d.state with
        active_downloads := dremove d.state.active_downloads cache_path } }

/-- Embeds `MediaManager.get_media._download` (lines 88–139): one request to the
chosen endpoint; 200 saves the file and fills the path cache (a body that
fails image decoding raises and is swallowed by the `except`); any non-200
status records the mxc reference in the negative set; a raised transport
error records nothing.  The `finally` always drops the single-flight
entry. -/
def media_download (net : String → HttpResp) (s : MgrState) (a : MediaArgs) :
    DlResult :=
  finally_pop (media_cache_path a) <|
    if !mxcHasSlash a.mxc_url then ⟨none, s, []⟩
    else
      let http_url := media_request_url a
      match net http_url with
      | .ok good =>
          if good then
            ⟨some (media_cache_path a),
              { s with path_cache :=
                  (dinsert s.path_cache (media_cache_key a)
                    (media_cache_path a)) },
              [http_url]⟩
          else ⟨none, s, [http_url]⟩
      | .err _ =>
          ⟨none,
            { s with failure_cache := saddElem s.failure_cache a.mxc_url },
            [http_url]⟩
      | .exn => ⟨none, s, [http_url]⟩

/-- Embeds `AvatarManager.get_avatar._download` (lines 100–183): try the
thumbnail URL; on any thumbnail failure (404, other status, or exception)
continue to the full download URL; when neither attempt yields a body the
mxc reference enters the negative set — except that a non-404 failure or
exception on the full download returns immediately without recording it.
A 200 body that fails processing raises into the outer `except`.  The
`finally` always drops the single-flight entry. -/
def avatar_download (net : String → HttpResp) (s : MgrState) (a : AvatarArgs) :
    DlResult :=
  finally_pop (avatar_cache_path a) <|
    if !mxcHasSlash a.mxc_url then ⟨none, s, []⟩
    else
      let turl := avatar_thumb_url a
      let durl := avatar_dl_url a
      let succeed : DlResult :=
        ⟨some (avatar_cache_path a),
          { s with path_cache :=
              (dinsert s.path_cache (avatar_cache_key a)
                (avatar_cache_path a)) },
          [turl, durl]⟩
      match net turl with
      | .ok good =>
          if good then
            ⟨some (avatar_cache_path a),
              { s with path_cache :=
                  (dinsert s.path_cache (avatar_cache_key a)
                    (avatar_cache_path a)) },
              [turl]⟩
          else ⟨none, s, [turl]⟩
      | _ =>
          match net durl with
          | .ok good => if good then succeed else ⟨none, s, [turl, durl]⟩
          | .err c =>
              if c = 404 then
                ⟨none,
                  { s with
                    failure_cache := saddElem s.failure_cache a.mxc_url },
                  [turl, durl]⟩
              else ⟨none, s, [turl, durl]⟩
          | .exn => ⟨none, s, [turl, durl]⟩

/-- What the synchronous prefix of a `get` decides before any suspension
point: return immediately, await an in-flight task, or spawn a new one. -/
inductive GetDecision
  | ret (r : Option String)
  | awaitTask (tid : Nat)
  | spawnTask
deriving DecidableEq, Repr

/-- The synchronous prefix of `MediaManager.get_media` (lines 70–86): the
mxc well-formedness guard, then path cache, negative cache, disk cache,
and the single-flight table, in that order.  There is no `await` between
these checks and the table insertion, so the prefix is atomic under
cooperative scheduling. -/
def media_get_phase1 (disk : String → Bool) (s : MgrState) (a : MediaArgs) :
    GetDecision × MgrState :=
  if (a.mxc_url == "") || !pyStartsWith a.mxc_url "mxc://" then (.ret none, s)
  else
    let cache_key := media_cache_key a
    match List.lookup cache_key s.path_cache with
    | some p => (.ret (some p), s)
    | none =>
        if a.mxc_url ∈ s.failure_cache then (.ret none, s)
        else
          let cache_path := media_cache_path a
          if disk cache_path then
            (.ret (some cache_path),
              { s with path_cache := dinsert s.path_cache cache_key cache_path })
          else
            match List.lookup cache_path s.active_downloads with
            | some t => (.awaitTask t, s)
            | none => (.spawnTask, s)

/-- The synchronous prefix of `AvatarManager.get_avatar` (lines 75–98),
identical in shape to the media prefix. -/
def avatar_get_phase1 (disk : String → Bool) (s : MgrState) (a : AvatarArgs) :
    GetDecision × MgrState :=
  if (a.mxc_url == "") || !pyStartsWith a.mxc_url "mxc://" then (.ret none, s)
  else
    let cache_key := avatar_cache_key a
    match List.lookup cache_key s.path_cache with
    | some p => (.ret (some p), s)
    | none =>
        if a.mxc_url ∈ s.failure_cache then (.ret none, s)
        else
          let cache_path := avatar_cache_path a
          if disk cache_path then
            (.ret (some cache_path),
              { s with path_cache := dinsert s.path_cache cache_key cache_path })
          else
            match List.lookup cache_path s.active_downloads with
            | some t => (.awaitTask t, s)
            | none => (.spawnTask, s)

/-- A full sequential `get_media` call: the prefix, then either an
immediate return, the await of another task's result (`tasks` is the
event-loop's view of task results), or registering task `tid` in the
single-flight table and running the download. -/
def media_get (disk : String → Bool) (net : String → HttpResp)
    (tasks : Nat → Option String) (tid : Nat) (s : MgrState) (a : MediaArgs) :
    DlResult :=
  match media_get_phase1 disk s a with
  | (.ret r, s1) => ⟨r, s1, []⟩
  | (.awaitTask t, s1) => ⟨tasks t, s1, []⟩
  | (.spawnTask, s1) =>
      media_download net
        { s1 with active_downloads :=
            dinsert s1.active_downloads (media_cache_path a) tid } a

/-- A full sequential `get_avatar` call, mirroring `media_get`. -/
def avatar_get (disk : String → Bool) (net : String → HttpResp)
    (tasks : Nat → Option String) (tid : Nat) (s : MgrState) (a : AvatarArgs) :
    DlResult :=
  match avatar_get_phase1 disk s a with
  | (.ret r, s1) => ⟨r, s1, []⟩
  | (.awaitTask t, s1) => ⟨tasks t, s1, []⟩
  | (.spawnTask, s1) =>
      avatar_download net
        { s1 with active_downloads :=
            dinsert s1.active_downloads (avatar_cache_path a) tid } a

/-! ### Fixtures for concrete runs -/

/-- A filesystem with no cache files. -/
def noDisk : String → Bool := fun _ => false

/-- An event loop with no completed task results. -/
def noTasks : Nat → Option String := fun _ => none

/-- A network where every request succeeds with a decodable image. -/
def okNet : String → HttpResp := fun _ => .ok true

/-- A network where every request yields HTTP 404. -/
def err404Net : String → HttpResp := fun _ => .err 404

/-- A fresh manager state. -/
def emptyMgr : MgrState := ⟨[], [], []⟩

/-- An avatar request at the default size. -/
def avA64 : AvatarArgs :=
  { homeserver := "hs.example", mxc_url := "mxc://hs/av", size := 64 }

/-- The same avatar reference at a different size. -/
def avA128 : AvatarArgs :=
  { homeserver := "hs.example", mxc_url := "mxc://hs/av", size := 128 }

/-- State after a successful size-64 fetch of `avA64`. -/
def avStage1 : MgrState := (avatar_get noDisk okNet noTasks 0 emptyMgr avA64).state

/-- State after a subsequently failed size-128 fetch: the reference is now
in the negative set while the size-64 path-cache entry remains. -/
def avStage2 : MgrState :=
  (avatar_get noDisk err404Net noTasks 1 avStage1 avA128).state

/-- A media request with explicit thumbnail dimensions. -/
def mA : MediaArgs :=
  { homeserver := "hs.example", mxc_url := "mxc://hs/img",
    width := some 64, height := some 64 }

/-- A stored credential record whose identifiers carry stray whitespace. -/
def wsCreds : Creds :=
  { homeserver := "https://hs.example", user_id := " @alice:hs.example ",
    access_token := "tok", device_id := " DEVICE " }

/-! ### Properties -/

theorem lookup_cons_ne {α : Type} {a k : String} (b : α) (es : List (String × α))
    (h : a ≠ k) : List.lookup a ((k, b) :: es) = List.lookup a es := by
  have hb : (a == k) = false := beq_eq_false_iff_ne.mpr h
  simp [List.lookup_cons, hb]

theorem lookup_dinsert {α : Type} (m : List (String × α)) (k k' : String) (v : α) :
    List.lookup k' (dinsert m k v) =
      if k' = k then some v else List.lookup k' m := by
  induction m with
  | nil =>
      by_cases h : k' = k
      · subst h; simp [dinsert]
      · simp [dinsert, h, lookup_cons_ne _ _ h]
  | cons e rest ih =>
      obtain ⟨a, b⟩ := e
      by_cases hak : a = k
      · subst hak
        by_cases h : k' = a
        · subst h; simp [dinsert]
        · simp [dinsert, h, lookup_cons_ne _ _ h]
      · by_cases h : k' = a
        · subst h
          simp [dinsert, hak]
        · simp [dinsert, hak, lookup_cons_ne _ _ h, ih]

theorem dget_dappend (m : List (String × List String)) (k k' v : String) :
    dget (dappend m k v) k' =
      if k' = k then dget m k' ++ [v] else dget m k' := by
  induction m with
  | nil =>
      by_cases h : k' = k
      · subst h; simp [dget, dappend]
      · simp [dget, dappend, h, lookup_cons_ne _ _ h]
  | cons e rest ih =>
      obtain ⟨a, b⟩ := e
      by_cases hak : a = k
      · subst hak
        by_cases h : k' = a
        · subst h; simp [dget, dappend]
        · simp [dget, dappend, h, lookup_cons_ne _ _ h]
      · by_cases h : k' = a
        · subst h
          simp [dget, dappend, hak]
        · simpa [dget, dappend, hak, lookup_cons_ne _ _ h] using ih

theorem dget_dinsert (m : List (String × List String)) (k k' : String)
    (v : List String) :
    dget (dinsert m k v) k' = if k' = k then v else dget m k' := by
  by_cases h : k' = k <;> simp [dget, lookup_dinsert, h]

theorem lookup_dremove {α : Type} (m : List (String × α)) (k : String) :
    List.lookup k (dremove m k) = none := by
  induction m with
  | nil => simp [dremove]
  | cons e rest ih =>
      obtain ⟨a, b⟩ := e
      by_cases h : a = k
      · simpa [dremove, h] using ih
      · have hne : k ≠ a := fun hk => h hk.symm
        have : dremove ((a, b) :: rest) k = (a, b) :: dremove rest k := by
          simp [dremove, h]
        rw [this, lookup_cons_ne _ _ hne, ih]

theorem charListLE_total : ∀ as bs : List Char,
    charListLE as bs = true ∨ charListLE bs as = true
  | [], _ => Or.inl rfl
  | _ :: _, [] => Or.inr rfl
  | a :: as, b :: bs => by
      by_cases hab : a = b
      · subst hab
        rcases charListLE_total as bs with h | h
        · exact Or.inl (by simpa [charListLE] using h)
        · exact Or.inr (by simpa [charListLE] using h)
      · rcases lt_or_gt_of_ne hab with h | h
        · exact Or.inl (by simp [charListLE, hab, h])
        · exact Or.inr (by simp [charListLE, Ne.symm hab, h])

theorem charListLE_trans : ∀ as bs cs : List Char,
    charListLE as bs = true → charListLE bs cs = true →
    charListLE as cs = true
  | [], _, _ => fun _ _ => rfl
  | a :: as, [], _ => fun h _ => by simp [charListLE] at h
  | a :: as, b :: bs, [] => fun _ h => by simp [charListLE] at h
  | a :: as, b :: bs, c :: cs => by
      intro h1 h2
      by_cases hab : a = b <;> by_cases hbc : b = c
      · subst hab; subst hbc
        simp only [charListLE, if_pos rfl] at h1 h2 ⊢
        exact charListLE_trans as bs cs h1 h2
      · subst hab
        simp only [charListLE, if_neg hbc] at h2
        simp only [charListLE, if_neg hbc]
        exact h2
      · subst hbc
        simp only [charListLE, if_neg hab] at h1
        simp only [charListLE, if_neg hab]
        exact h1
      · simp only [charListLE, if_neg hab] at h1
        simp only [charListLE, if_neg hbc] at h2
        have hac : a < c := lt_trans (of_decide_eq_true h1) (of_decide_eq_true h2)
        have hane : a ≠ c := ne_of_lt hac
        simp [charListLE, hane, hac]

theorem vstep_cancelled (m : VMsg) : vstep .cancelled m = .cancelled := rfl

theorem vrun_from_cancelled (ms : List VMsg) :
    ms.foldl vstep .cancelled = .cancelled := by
  induction ms with
  | nil => rfl
  | cons m rest ih => simpa [vstep] using ih

/-- Before any key-exchange message, a transaction can only sit in
`requested`, `started` or `cancelled`. -/
theorem vrun_no_key (ms : List VMsg) (h : VMsg.keyMsg ∉ ms) :
    ms.foldl vstep .requested = .requested ∨
    ms.foldl vstep .requested = .started ∨
    ms.foldl vstep .requested = .cancelled := by
  suffices H : ∀ (s : VState), s = .requested ∨ s = .started ∨ s = .cancelled →
      ms.foldl vstep s = .requested ∨ ms.foldl vstep s = .started ∨
      ms.foldl vstep s = .cancelled by
    exact H .requested (Or.inl rfl)
  induction ms with
  | nil => intro s hs; simpa using hs
  | cons m rest ih =>
      intro s hs
      have hm : m ≠ VMsg.keyMsg := by
        intro hmk; exact h (by simp [hmk])
      have hrest : VMsg.keyMsg ∉ rest := fun hr => h (by simp [hr])
      have := ih hrest
      rcases hs with hs | hs | hs <;> subst hs <;>
        cases m <;> simp [vstep] at hm ⊢ <;>
        first
          | exact this _ (Or.inl rfl)
          | exact this _ (Or.inr (Or.inl rfl))
          | exact this _ (Or.inr (Or.inr rfl))

theorem dget_mapval (f : List String → List String) (hf : f [] = [])
    (m : List (String × List String)) (k : String) :
    dget (m.map (fun e => (e.1, f e.2))) k = f (dget m k) := by
  induction m with
  | nil => simpa [dget] using hf.symm
  | cons e rest ih =>
      obtain ⟨a, b⟩ := e
      by_cases h : k = a
      · subst h; simp [dget]
      · simpa [dget, List.map_cons, lookup_cons_ne _ _ h] using ih

theorem keys_nodup_eq {α : Type} {l : List (String × α)}
    (h : (l.map Prod.fst).Nodup) {r : String} {x y : α}
    (hx : (r, x) ∈ l) (hy : (r, y) ∈ l) : x = y := by
  induction l with
  | nil => cases hx
  | cons e t ih =>
      simp only [List.map_cons, List.nodup_cons] at h
      rcases List.mem_cons.mp hx with hx | hx
      · rcases List.mem_cons.mp hy with hy | hy
        · exact congrArg Prod.snd (hx.trans hy.symm)
        · exfalso
          apply h.1
          rw [← hx]
          show r ∈ List.map Prod.fst t
          exact List.mem_map_of_mem Prod.fst hy
      · rcases List.mem_cons.mp hy with hy | hy
        · exfalso
          apply h.1
          rw [← hy]
          show r ∈ List.map Prod.fst t
          exact List.mem_map_of_mem Prod.fst hx
        · exact ih h.2 hx hy

theorem pm_nonempty_foldAppend (cs : List String) (rid : String)
    (pm : List (String × List String)) (r : String) (h : dget pm r ≠ []) :
    dget (cs.foldl (fun pm cid => dappend pm cid rid) pm) r ≠ [] := by
  induction cs generalizing pm with
  | nil => exact h
  | cons c cs ih =>
      refine ih (dappend pm c rid) ?_
      rw [dget_dappend]
      by_cases hc : r = c <;> simp [hc, h]

theorem pm_mem_foldAppend (cs : List String) (rid : String)
    (pm : List (String × List String)) (r : String) (h : r ∈ cs) :
    dget (cs.foldl (fun pm cid => dappend pm cid rid) pm) r ≠ [] := by
  induction cs generalizing pm with
  | nil => cases h
  | cons c cs ih =>
      by_cases hc : r = c
      · subst hc
        refine pm_nonempty_foldAppend cs rid _ r ?_
        rw [dget_dappend]
        simp
      · exact ih (dappend pm c rid) (by
          rcases List.mem_cons.mp h with h | h
          · exact absurd h hc
          · exact h)

theorem processRoom_eq (joined : List String)
    (maps : List (String × List String) × List (String × List String))
    (entry : String × Room) :
    processRoom joined maps entry =
      parentsFold entry.1
        (entry.2.parents.filter (fun pid => joined.contains pid))
        (if (entry.2.children.filter (fun cid => joined.contains cid)).isEmpty
          then maps
          else
            (dinsert maps.1 entry.1
                (entry.2.children.filter (fun cid => joined.contains cid)),
              (entry.2.children.filter (fun cid => joined.contains cid)).foldl
                (fun pm cid => dappend pm cid entry.1) maps.2)) := rfl

theorem edgeInv_parentsFold (rid : String) (vp : List String)
    (maps : List (String × List String) × List (String × List String))
    (h : EdgeInv maps) : EdgeInv (parentsFold rid vp maps) := by
  induction vp generalizing maps with
  | nil => exact h
  | cons pid vp ih =>
      refine ih (dappend maps.1 pid rid, dappend maps.2 rid pid) ?_
      intro b r hr
      rw [dget_dappend] at hr
      rw [dget_dappend]
      by_cases hb : b = pid
      · simp only [hb, if_pos rfl] at hr
        rcases List.mem_append.mp hr with hr | hr
        · have := h b r (by simpa [hb] using hr)
          by_cases hrr : r = rid <;> simp [hrr, this]
        · have hrrid : r = rid := by simpa using hr
          simp [hrrid]
      · simp only [hb, if_neg hb] at hr
        have := h b r hr
        by_cases hrr : r = rid <;> simp [hrr, this]

theorem pm_nonempty_parentsFold (rid : String) (vp : List String)
    (maps : List (String × List String) × List (String × List String))
    (r : String) (h : dget maps.2 r ≠ []) :
    dget (parentsFold rid vp maps).2 r ≠ [] := by
  induction vp generalizing maps with
  | nil => exact h
  | cons pid vp ih =>
      refine ih (dappend maps.1 pid rid, dappend maps.2 rid pid) ?_
      rw [dget_dappend]
      by_cases hr : r = rid <;> simp [hr, h]

theorem cm_mem_parentsFold (rid : String) (vp : List String)
    (maps : List (String × List String) × List (String × List String))
    {a b : String} (h : b ∈ dget maps.1 a) :
    b ∈ dget (parentsFold rid vp maps).1 a := by
  induction vp generalizing maps with
  | nil => exact h
  | cons pid vp ih =>
      refine ih (dappend maps.1 pid rid, dappend maps.2 rid pid) ?_
      show b ∈ dget (dappend maps.1 pid rid) a
      rw [dget_dappend]
      by_cases ha : a = pid
      · rw [if_pos ha]
        exact List.mem_append_left _ h
      · rw [if_neg ha]
        exact h

theorem edgeInv_processRoom (joined : List String)
    (maps : List (String × List String) × List (String × List String))
    (entry : String × Room) (h : EdgeInv maps) :
    EdgeInv (processRoom joined maps entry) := by
  rw [processRoom_eq]
  apply edgeInv_parentsFold
  by_cases hvc : (entry.2.children.filter (fun cid => joined.contains cid)).isEmpty
  · rw [if_pos hvc]; exact h
  · rw [if_neg hvc]
    intro b r hr
    replace hr : r ∈ dget (dinsert maps.1 entry.1
        (entry.2.children.filter (fun cid => joined.contains cid))) b := hr
    rw [dget_dinsert] at hr
    show dget ((entry.2.children.filter (fun cid => joined.contains cid)).foldl
      (fun pm cid => dappend pm cid entry.1) maps.2) r ≠ []
    by_cases hb : b = entry.1
    · rw [if_pos hb] at hr
      exact pm_mem_foldAppend _ _ _ _ hr
    · rw [if_neg hb] at hr
      exact pm_nonempty_foldAppend _ _ _ _ (h b r hr)

theorem edgeInv_foldl (joined : List String) (l : List (String × Room))
    (maps : List (String × List String) × List (String × List String))
    (h : EdgeInv maps) :
    EdgeInv (l.foldl (processRoom joined) maps) := by
  induction l generalizing maps with
  | nil => exact h
  | cons e t ih => exact ih _ (edgeInv_processRoom joined maps e h)

theorem edgeInv_rawMaps (rooms : RoomSnapshot) : EdgeInv (rawMaps rooms) := by
  apply edgeInv_foldl
  intro b r hr
  simp [dget] at hr

theorem lookup_mapval {α β : Type} (f : α → β) (m : List (String × α))
    (k : String) :
    List.lookup k (m.map (fun e => (e.1, f e.2))) = (List.lookup k m).map f := by
  induction m with
  | nil => simp
  | cons e rest ih =>
      obtain ⟨a, b⟩ := e
      by_cases h : k = a
      · subst h; simp
      · simp only [List.map_cons]
        rw [lookup_cons_ne _ _ h, lookup_cons_ne _ _ h, ih]

theorem dget_hierarchy_children (rooms : RoomSnapshot) (b : String) :
    dget (get_hierarchy rooms).children b =
      ((dget (rawMaps rooms).1 b).dedup).insertionSort (hierLE rooms) := by
  show dget (((rawMaps rooms).1.map (fun e => (e.1, e.2.dedup))).map
      (fun e => (e.1, e.2.insertionSort (hierLE rooms)))) b = _
  rw [dget_mapval _ rfl, dget_mapval _ rfl]

theorem mem_hierarchy_children (rooms : RoomSnapshot) (b r : String) :
    r ∈ dget (get_hierarchy rooms).children b ↔ r ∈ dget (rawMaps rooms).1 b := by
  rw [dget_hierarchy_children, List.mem_insertionSort, List.mem_dedup]

theorem dget_parents_map (rooms : RoomSnapshot) (r : String) :
    dget (parents_map rooms) r = (dget (rawMaps rooms).2 r).dedup :=
  dget_mapval _ rfl _ _

theorem mem_orphans_iff (rooms : RoomSnapshot) (r : String) :
    r ∈ (get_hierarchy rooms).orphans ↔
      ∃ room : Room, (r, room) ∈ rooms ∧ ¬room.room_type = some "m.space" ∧
        dget (parents_map rooms) r = [] := by
  have hrep : (get_hierarchy rooms).orphans =
      (((rooms.map (fun e => (e.1, decide (e.2.room_type = some "m.space")))).filter
        (fun e => !e.2 && (dget (parents_map rooms) e.1).isEmpty)).map
          Prod.fst).insertionSort (hierLE rooms) := rfl
  rw [hrep, List.mem_insertionSort]
  constructor
  · intro h
    rcases List.mem_map.mp h with ⟨e, he, hfst⟩
    rcases List.mem_filter.mp he with ⟨hmem, hcond⟩
    rcases List.mem_map.mp hmem with ⟨⟨a, room⟩, ha, hae⟩
    subst hae
    obtain rfl : a = r := hfst
    simp only [Bool.and_eq_true, Bool.not_eq_true', decide_eq_false_iff_not,
      List.isEmpty_iff] at hcond
    exact ⟨room, ha, hcond.1, hcond.2⟩
  · rintro ⟨room, hmem, htype, hpm⟩
    refine List.mem_map.mpr
      ⟨(r, decide (room.room_type = some "m.space")), ?_, rfl⟩
    refine List.mem_filter.mpr ⟨List.mem_map.mpr ⟨(r, room), hmem, rfl⟩, ?_⟩
    simp [htype, hpm, List.isEmpty_iff]

theorem mem_top_level_iff (rooms : RoomSnapshot) (r : String) :
    r ∈ (get_hierarchy rooms).top_level_spaces ↔
      ∃ room : Room, (r, room) ∈ rooms ∧ room.room_type = some "m.space" ∧
        dget (parents_map rooms) r = [] := by
  have hrep : (get_hierarchy rooms).top_level_spaces =
      (((rooms.map (fun e => (e.1, decide (e.2.room_type = some "m.space")))).filter
        (fun e => e.2 && (dget (parents_map rooms) e.1).isEmpty)).map
          Prod.fst).insertionSort (hierLE rooms) := rfl
  rw [hrep, List.mem_insertionSort]
  constructor
  · intro h
    rcases List.mem_map.mp h with ⟨e, he, hfst⟩
    rcases List.mem_filter.mp he with ⟨hmem, hcond⟩
    rcases List.mem_map.mp hmem with ⟨⟨a, room⟩, ha, hae⟩
    subst hae
    obtain rfl : a = r := hfst
    simp only [Bool.and_eq_true, decide_eq_true_eq, List.isEmpty_iff] at hcond
    exact ⟨room, ha, hcond.1, hcond.2⟩
  · rintro ⟨room, hmem, htype, hpm⟩
    refine List.mem_map.mpr
      ⟨(r, decide (room.room_type = some "m.space")), ?_, rfl⟩
    refine List.mem_filter.mpr ⟨List.mem_map.mpr ⟨(r, room), hmem, rfl⟩, ?_⟩
    simp [htype, hpm, List.isEmpty_iff]

theorem processRoom_cm_preserve (joined : List String)
    (maps : List (String × List String) × List (String × List String))
    (entry : String × Room) {A B : String}
    (hne : entry.1 ≠ A) (h : B ∈ dget maps.1 A) :
    B ∈ dget (processRoom joined maps entry).1 A := by
  rw [processRoom_eq]
  apply cm_mem_parentsFold
  by_cases hvc : (entry.2.children.filter (fun cid => joined.contains cid)).isEmpty
  · rw [if_pos hvc]; exact h
  · rw [if_neg hvc]
    show B ∈ dget (dinsert maps.1 entry.1
      (entry.2.children.filter (fun cid => joined.contains cid))) A
    rw [dget_dinsert, if_neg (fun hAe => hne hAe.symm)]
    exact h

theorem processRoom_pm_preserve (joined : List String)
    (maps : List (String × List String) × List (String × List String))
    (entry : String × Room) {r : String}
    (h : dget maps.2 r ≠ []) :
    dget (processRoom joined maps entry).2 r ≠ [] := by
  rw [processRoom_eq]
  apply pm_nonempty_parentsFold
  by_cases hvc : (entry.2.children.filter (fun cid => joined.contains cid)).isEmpty
  · rw [if_pos hvc]; exact h
  · rw [if_neg hvc]
    show dget ((entry.2.children.filter (fun cid => joined.contains cid)).foldl
      (fun pm cid => dappend pm cid entry.1) maps.2) r ≠ []
    exact pm_nonempty_foldAppend _ _ _ _ h

theorem foldl_cm_preserve (joined : List String) (l : List (String × Room))
    {A B : String} :
    ∀ maps : List (String × List String) × List (String × List String),
      (∀ e ∈ l, e.1 ≠ A) → B ∈ dget maps.1 A →
      B ∈ dget (l.foldl (processRoom joined) maps).1 A := by
  induction l with
  | nil => intro maps _ h; exact h
  | cons e t ih =>
      intro maps hl h
      exact ih _ (fun x hx => hl x (List.mem_cons_of_mem _ hx))
        (processRoom_cm_preserve joined maps e (hl e (List.mem_cons_self _ _)) h)

theorem foldl_pm_preserve (joined : List String) (l : List (String × Room))
    (maps : List (String × List String) × List (String × List String))
    {r : String} (h : dget maps.2 r ≠ []) :
    dget (l.foldl (processRoom joined) maps).2 r ≠ [] := by
  induction l generalizing maps with
  | nil => exact h
  | cons e t ih => exact ih _ (processRoom_pm_preserve joined maps e h)

theorem hierLE_isTotal (rooms : RoomSnapshot) : IsTotal String (hierLE rooms) :=
  ⟨fun a b => charListLE_total (sort_key rooms a).data (sort_key rooms b).data⟩

theorem hierLE_isTrans (rooms : RoomSnapshot) : IsTrans String (hierLE rooms) :=
  ⟨fun _ _ _ hab hbc => charListLE_trans _ _ _ hab hbc⟩

/-- An edge of the final children mapping forces a nonempty derived parent
list on the child: the bridge from `EdgeInv` to the published `Hierarchy`. -/
theorem children_edge_parents_nonempty (rooms : RoomSnapshot) {b r : String}
    (h : r ∈ dget (get_hierarchy rooms).children b) :
    dget (parents_map rooms) r ≠ [] := by
  rw [dget_parents_map]
  have hraw : r ∈ dget (rawMaps rooms).1 b := (mem_hierarchy_children rooms b r).mp h
  have hne := edgeInv_rawMaps rooms b r hraw
  rcases List.exists_mem_of_ne_nil _ hne with ⟨x, hx⟩
  exact List.ne_nil_of_mem (List.mem_dedup.mpr hx)

/-! ### Helper lemmas about the get prefixes -/

theorem mxc_valid_ne_empty {u : String}
    (hv : pyStartsWith u "mxc://" = true) : (u == "") = false := by
  by_cases h : u = ""
  · subst h
    simp [pyStartsWith, List.isPrefixOf] at hv
  · simpa using h

theorem media_phase1_negative (disk : String → Bool) (s : MgrState)
    (a : MediaArgs) (ha : a.mxc_url ∈ s.failure_cache) :
    media_get_phase1 disk s a =
      (if pyStartsWith a.mxc_url "mxc://" = true then
        (GetDecision.ret (List.lookup (media_cache_key a) s.path_cache), s)
      else (GetDecision.ret none, s)) := by
  by_cases hss : pyStartsWith a.mxc_url "mxc://" = true
  · rw [if_pos hss]
    unfold media_get_phase1
    rw [mxc_valid_ne_empty hss, hss]
    cases hlk : List.lookup (media_cache_key a) s.path_cache with
    | some p => simp [hlk]
    | none => simp [hlk, ha]
  · rw [if_neg hss]
    have hf : pyStartsWith a.mxc_url "mxc://" = false :=
      Bool.not_eq_true _ ▸ eq_false_of_ne_true hss
    unfold media_get_phase1
    rw [hf]
    simp

theorem avatar_phase1_negative (disk : String → Bool) (s : MgrState)
    (b : AvatarArgs) (hb : b.mxc_url ∈ s.failure_cache) :
    avatar_get_phase1 disk s b =
      (if pyStartsWith b.mxc_url "mxc://" = true then
        (GetDecision.ret (List.lookup (avatar_cache_key b) s.path_cache), s)
      else (GetDecision.ret none, s)) := by
  by_cases hss : pyStartsWith b.mxc_url "mxc://" = true
  · rw [if_pos hss]
    unfold avatar_get_phase1
    rw [mxc_valid_ne_empty hss, hss]
    cases hlk : List.lookup (avatar_cache_key b) s.path_cache with
    | some p => simp [hlk]
    | none => simp [hlk, hb]
  · rw [if_neg hss]
    have hf : pyStartsWith b.mxc_url "mxc://" = false :=
      Bool.not_eq_true _ ▸ eq_false_of_ne_true hss
    unfold avatar_get_phase1
    rw [hf]
    simp

/-- C10: an empty or non-`mxc://` content reference makes both getters
return `none` from the very first guard: no network request, and the path
cache, negative set, and single-flight table are all left untouched. -/
theorem invalid_mxc_noop (disk : String → Bool) (net : String → HttpResp)
    (tasks : Nat → Option String) (tid : Nat) (s : MgrState)
    (a : MediaArgs) (b : AvatarArgs)
    (hma : a.mxc_url = "" ∨ pyStartsWith a.mxc_url "mxc://" = false)
    (hmb : b.mxc_url = "" ∨ pyStartsWith b.mxc_url "mxc://" = false) :
    media_get disk net tasks tid s a = ⟨none, s, []⟩ ∧
    avatar_get disk net tasks tid s b = ⟨none, s, []⟩ := by
  constructor
  · have hg : ((a.mxc_url == "") || !pyStartsWith a.mxc_url "mxc://") = true := by
      rcases hma with h | h <;> simp [h]
    unfold media_get media_get_phase1
    rw [hg]
    simp
  · have hg : ((b.mxc_url == "") || !pyStartsWith b.mxc_url "mxc://") = true := by
      rcases hmb with h | h <;> simp [h]
    unfold avatar_get avatar_get_phase1
    rw [hg]
    simp

/-- C10 witness: a plain http URL and an empty reference short-circuit. -/
theorem invalid_mxc_noop_witness :
    media_get noDisk err404Net noTasks 0 emptyMgr
        { homeserver := "hs", mxc_url := "http://x" } = ⟨none, emptyMgr, []⟩ ∧
    avatar_get noDisk err404Net noTasks 0 emptyMgr
        { homeserver := "hs", mxc_url := "" } = ⟨none, emptyMgr, []⟩ :=
  invalid_mxc_noop noDisk err404Net noTasks 0 emptyMgr _ _
    (Or.inr (by decide)) (Or.inl (by decide))

/-- C7 (amended): a reference in the negative set never causes a network
request and leaves the state untouched, and the call returns `none`
unless the exact `(reference, size)` key is already in the in-memory path
cache, in which case the earlier check returns that cached path. -/
theorem negative_cache_short_circuit (disk : String → Bool)
    (net : String → HttpResp) (tasks : Nat → Option String) (tid : Nat)
    (s : MgrState) (a : MediaArgs) (b : AvatarArgs)
    (ha : a.mxc_url ∈ s.failure_cache) (hb : b.mxc_url ∈ s.failure_cache) :
    ((media_get disk net tasks tid s a).requests = [] ∧
      (media_get disk net tasks tid s a).state = s ∧
      (media_get disk net tasks tid s a).result =
        (if pyStartsWith a.mxc_url "mxc://" = true then
          List.lookup (media_cache_key a) s.path_cache
        else none)) ∧
    ((avatar_get disk net tasks tid s b).requests = [] ∧
      (avatar_get disk net tasks tid s b).state = s ∧
      (avatar_get disk net tasks tid s b).result =
        (if pyStartsWith b.mxc_url "mxc://" = true then
          List.lookup (avatar_cache_key b) s.path_cache
        else none)) := by
  constructor
  · unfold media_get
    rw [media_phase1_negative disk s a ha]
    by_cases hss : pyStartsWith a.mxc_url "mxc://" = true
    · rw [if_pos hss, if_pos hss]
      exact ⟨rfl, rfl, rfl⟩
    · rw [if_neg hss, if_neg hss]
      exact ⟨rfl, rfl, rfl⟩
  · unfold avatar_get
    rw [avatar_phase1_negative disk s b hb]
    by_cases hss : pyStartsWith b.mxc_url "mxc://" = true
    · rw [if_pos hss, if_pos hss]
      exact ⟨rfl, rfl, rfl⟩
    · rw [if_neg hss, if_neg hss]
      exact ⟨rfl, rfl, rfl⟩

/-- C7 counterexample: after a successful size-64 avatar fetch and a
failed size-128 fetch of the same reference, the reference sits in the
negative set, yet a repeated size-64 call returns the cached path — not
`none` — because the path-cache check precedes the negative-cache check.
The state is reached purely by running the embedded operations. -/
theorem negative_cache_path_hit :
    avA64.mxc_url ∈ avStage2.failure_cache ∧
    (avatar_get noDisk err404Net noTasks 2 avStage2 avA64).requests = [] ∧
    (avatar_get noDisk err404Net noTasks 2 avStage2 avA64).result =
      some (avatar_cache_path avA64) := by decide

/-- C7 witness: with a fresh path cache the short-circuit does return
`none` with no request. -/
theorem negative_cache_short_circuit_witness :
    (media_get noDisk err404Net noTasks 0
        ⟨[], ["mxc://hs/img"], []⟩
        { homeserver := "hs.example", mxc_url := "mxc://hs/img" }).requests
      = [] ∧
    (media_get noDisk err404Net noTasks 0
        ⟨[], ["mxc://hs/img"], []⟩
        { homeserver := "hs.example", mxc_url := "mxc://hs/img" }).result
      = none := by
  have h := negative_cache_short_circuit noDisk err404Net noTasks 0
    ⟨[], ["mxc://hs/img"], []⟩
    { homeserver := "hs.example", mxc_url := "mxc://hs/img" }
    { homeserver := "hs.example", mxc_url := "mxc://hs/img" }
    (by decide) (by decide)
  exact ⟨h.1.1, h.1.2.2⟩

/-- C4 (amended): the avatar downloader falls back from a failed
thumbnail request (any failure, including not-found) to one
full-resolution request and stops there; the media downloader issues
exactly one request — the thumbnail endpoint when both dimensions are
truthy, else the download endpoint — and never falls back. -/
theorem download_fallback_policy (net : String → HttpResp) (s : MgrState)
    (a : AvatarArgs) (m : MediaArgs)
    (hA : mxcHasSlash a.mxc_url = true) (hM : mxcHasSlash m.mxc_url = true) :
    (avatar_download net s a).requests =
      (match net (avatar_thumb_url a) with
        | .ok _ => [avatar_thumb_url a]
        | _ => [avatar_thumb_url a, avatar_dl_url a]) ∧
    (media_download net s m).requests = [media_request_url m] := by
  constructor
  · unfold avatar_download finally_pop
    rw [hA]
    cases h1 : net (avatar_thumb_url a) with
    | ok good => cases good <;> simp [h1]
    | err c =>
        cases h2 : net (avatar_dl_url a) with
        | ok good => cases good <;> simp [h1, h2]
        | err c2 => by_cases hc : c2 = 404 <;> simp [h1, h2, hc]
        | exn => simp [h1, h2]
    | exn =>
        cases h2 : net (avatar_dl_url a) with
        | ok good => cases good <;> simp [h1, h2]
        | err c2 => by_cases hc : c2 = 404 <;> simp [h1, h2, hc]
        | exn => simp [h1, h2]
  · unfold media_download finally_pop
    rw [hM]
    cases h1 : net (media_request_url m) with
    | ok good => cases good <;> simp [h1]
    | err c => simp [h1]
    | exn => simp [h1]

/-- C4 witness: against an all-404 network, the avatar fetch requests the
thumbnail and then the full download; the media fetch requests only its
chosen endpoint. -/
theorem download_fallback_policy_witness :
    (avatar_download err404Net emptyMgr avA64).requests =
      [avatar_thumb_url avA64, avatar_dl_url avA64] ∧
    (media_download err404Net emptyMgr mA).requests = [media_request_url mA] := by
  have h := download_fallback_policy err404Net emptyMgr avA64 mA
    (by decide) (by decide)
  exact ⟨h.1, h.2⟩

/-- C4 counterexample: a media fetch whose size-appropriate thumbnail
request fails with 404 performs no full-resolution fallback — the one and
only request is the thumbnail endpoint, the full download URL is never
fetched, and the call fails. -/
theorem media_thumbnail_no_fallback :
    (media_download err404Net emptyMgr mA).requests = [media_thumb_url mA] ∧
    media_dl_url mA ∉ (media_download err404Net emptyMgr mA).requests ∧
    (media_download err404Net emptyMgr mA).result = none := by decide

/-- C8: two concurrent gets for the same fresh cache key coalesce.  The
first caller's atomic prefix decides to spawn (conjuncts 1 and 4 equate
its whole call with one download run against the state holding its
single-flight entry); the second caller's prefix, run against that state,
awaits the first caller's task `tid` — whatever its own `tid'` — issuing
no request of its own and receiving the task result the event loop binds
to `tid` (conjuncts 2 and 5); and the download routine removes the
single-flight entry on every exit path (conjuncts 3 and 6, quantified
over every pre-state). -/
theorem single_flight_and_cleanup (disk : String → Bool)
    (net : String → HttpResp) (tasks : Nat → Option String)
    (s : MgrState) (a : MediaArgs) (b : AvatarArgs) (tid tid2 : Nat)
    (hv : pyStartsWith a.mxc_url "mxc://" = true)
    (h1 : List.lookup (media_cache_key a) s.path_cache = none)
    (h2 : a.mxc_url ∉ s.failure_cache)
    (h3 : disk (media_cache_path a) = false)
    (h4 : List.lookup (media_cache_path a) s.active_downloads = none)
    (hv' : pyStartsWith b.mxc_url "mxc://" = true)
    (h1' : List.lookup (avatar_cache_key b) s.path_cache = none)
    (h2' : b.mxc_url ∉ s.failure_cache)
    (h3' : disk (avatar_cache_path b) = false)
    (h4' : List.lookup (avatar_cache_path b) s.active_downloads = none) :
    (media_get disk net tasks tid s a =
      media_download net
        { s with active_downloads :=
            dinsert s.active_downloads (media_cache_path a) tid } a) ∧
    (media_get disk net tasks tid2
        { s with active_downloads :=
            dinsert s.active_downloads (media_cache_path a) tid } a =
      ⟨tasks tid,
        { s with active_downloads :=
            dinsert s.active_downloads (media_cache_path a) tid }, []⟩) ∧
    (∀ s0 : MgrState, List.lookup (media_cache_path a)
        (media_download net s0 a).state.active_downloads = none) ∧
    (avatar_get disk net tasks tid s b =
      avatar_download net
        { s with active_downloads :=
            dinsert s.active_downloads (avatar_cache_path b) tid } b) ∧
    (avatar_get disk net tasks tid2
        { s with active_downloads :=
            dinsert s.active_downloads (avatar_cache_path b) tid } b =
      ⟨tasks tid,
        { s with active_downloads :=
            dinsert s.active_downloads (avatar_cache_path b) tid }, []⟩) ∧
    (∀ s0 : MgrState, List.lookup (avatar_cache_path b)
        (avatar_download net s0 b).state.active_downloads = none) := by
  have hga : ((a.mxc_url == "") || !pyStartsWith a.mxc_url "mxc://") = false := by
    rw [mxc_valid_ne_empty hv, hv]
    rfl
  have hgb : ((b.mxc_url == "") || !pyStartsWith b.mxc_url "mxc://") = false := by
    rw [mxc_valid_ne_empty hv', hv']
    rfl
  refine ⟨?_, ?_, ?_, ?_, ?_, ?_⟩
  · unfold media_get media_get_phase1
    rw [hga]
    simp [h1, h2, h3, h4]
  · unfold media_get media_get_phase1
    rw [hga]
    simp [h1, h2, h3, lookup_dinsert]
  · intro s0
    exact lookup_dremove _ _
  · unfold avatar_get avatar_get_phase1
    rw [hgb]
    simp [h1', h2', h3', h4']
  · unfold avatar_get avatar_get_phase1
    rw [hgb]
    simp [h1', h2', h3', lookup_dinsert]
  · intro s0
    exact lookup_dremove _ _

/-- C8 witness: a concrete fresh state, with the caller-one spawn
equation and the cleanup equation instantiated. -/
theorem single_flight_and_cleanup_witness :
    (media_get noDisk err404Net noTasks 0 emptyMgr mA =
      media_download err404Net
        { emptyMgr with active_downloads :=
            (dinsert emptyMgr.active_downloads (media_cache_path mA) 0) } mA) ∧
    List.lookup (media_cache_path mA)
      (media_download err404Net emptyMgr mA).state.active_downloads = none := by
  have h := single_flight_and_cleanup noDisk err404Net noTasks emptyMgr mA avA64
    0 1 (by decide) (by decide) (by decide) (by decide) (by decide)
    (by decide) (by decide) (by decide) (by decide) (by decide)
  exact ⟨h.1, h.2.2.1 emptyMgr⟩

/-- C2: a transaction that sees a mac-exchange message before any
key-exchange message is cancelled at that message and is never in the
`Done` state afterwards, whatever arrives later — no silent success. -/
theorem mac_before_key_never_done (pre suf : List VMsg)
    (h : VMsg.keyMsg ∉ pre) :
    vrun (pre ++ VMsg.macMsg :: suf) = VState.cancelled ∧
    vrun (pre ++ VMsg.macMsg :: suf) ≠ VState.vDone := by
  have hpre := vrun_no_key pre h
  have hmac : vstep (pre.foldl vstep .requested) VMsg.macMsg = .cancelled := by
    rcases hpre with hp | hp | hp <;> rw [hp] <;> rfl
  have : vrun (pre ++ VMsg.macMsg :: suf) = VState.cancelled := by
    unfold vrun
    rw [List.foldl_append, List.foldl_cons, hmac, vrun_from_cancelled]
  exact ⟨this, by rw [this]; intro hc; cases hc⟩

/-- C2 witness: an immediate mac-exchange message cancels the fresh
transaction. -/
theorem mac_before_key_never_done_witness :
    vrun [VMsg.macMsg] = VState.cancelled ∧ vrun [VMsg.macMsg] ≠ VState.vDone :=
  mac_before_key_never_done [] [] (by decide)

/-- C3 (amended): `restore_session` uses the stored identifiers exactly as
persisted — no whitespace normalization, no re-persisting of a normalized
record — and reports success whenever a record exists, whatever whitespace
the identifiers carry. -/
theorem restore_session_verbatim (s : SessionState) (c : Creds)
    (h : s.stored = some c) :
    restore_session s =
      (true,
        { s with
          client := some ⟨c.homeserver, c.user_id, some c.device_id, c.access_token⟩ }) := by
  unfold restore_session
  rw [h]

/-- C3 witness: a whitespace-padded record restores verbatim. -/
theorem restore_session_verbatim_witness :
    restore_session ⟨none, some wsCreds⟩ =
      (true, ⟨some ⟨"https://hs.example", " @alice:hs.example ",
        some " DEVICE ", "tok"⟩, some wsCreds⟩) :=
  restore_session_verbatim ⟨none, some wsCreds⟩ wsCreds rfl

/-- C3 counterexample: restoring a record whose user id carries leading
and trailing whitespace succeeds but neither trims the identifier before
use (the reconstructed client carries the padded id, which differs from
its trimmed form) nor re-persists a normalized record (storage still holds
the padded one). -/
theorem restore_session_no_normalization :
    (restore_session ⟨none, some wsCreds⟩).1 = true ∧
    (restore_session ⟨none, some wsCreds⟩).2.client.map (fun c => c.user) =
      some " @alice:hs.example " ∧
    (restore_session ⟨none, some wsCreds⟩).2.client.map (fun c => c.user) ≠
      some (pyStrip wsCreds.user_id) ∧
    pyStrip wsCreds.user_id = "@alice:hs.example" ∧
    (restore_session ⟨none, some wsCreds⟩).2.stored = some wsCreds := by decide

/-- C9: every `logout` run — here `serverFails` ranges over both outcomes
of the attempted server-side logout — ends with no client handle, no
stored credentials, and a recorded `clearCreds` effect. -/
theorem logout_always_clears (s : SessionState) (serverFails : Bool) :
    (logout s serverFails).1.client = none ∧
    (logout s serverFails).1.stored = none ∧
    LogoutAction.clearCreds ∈ (logout s serverFails).2 := by
  cases h : s.client <;> simp [logout, h]

/-- C1 (amended): orphans are disjoint from everything reachable from a
top-level space, and the partition that actually holds is three-way —
every joined room id is exactly one of a top-level space, an orphan, or a
room with a nonempty derived parent set; rooms reachable only through
non-space orphans (or cycles) fall in the third class without being
reachable from any top-level space. -/
theorem hierarchy_three_way_partition (rooms : RoomSnapshot)
    (hnd : (joined_ids rooms).Nodup) :
    (∀ r, (∃ s, s ∈ (get_hierarchy rooms).top_level_spaces ∧
        Reaches (get_hierarchy rooms).children s r) →
      r ∉ (get_hierarchy rooms).orphans) ∧
    (∀ r ∈ joined_ids rooms,
      (r ∈ (get_hierarchy rooms).top_level_spaces ∧
        r ∉ (get_hierarchy rooms).orphans ∧
        dget (parents_map rooms) r = []) ∨
      (r ∉ (get_hierarchy rooms).top_level_spaces ∧
        r ∈ (get_hierarchy rooms).orphans ∧
        dget (parents_map rooms) r = []) ∨
      (r ∉ (get_hierarchy rooms).top_level_spaces ∧
        r ∉ (get_hierarchy rooms).orphans ∧
        dget (parents_map rooms) r ≠ [])) := by
  constructor
  · rintro r ⟨s0, hs0, hreach⟩
    induction hreach with
    | refl =>
        intro horph
        rcases (mem_top_level_iff rooms s0).mp hs0 with ⟨room, hm, hsp, -⟩
        rcases (mem_orphans_iff rooms s0).mp horph with ⟨room2, hm2, hns, -⟩
        exact hns (by rw [keys_nodup_eq hnd hm2 hm]; exact hsp)
    | step h hc ih =>
        intro horph
        rcases (mem_orphans_iff rooms _).mp horph with ⟨room2, hm2, hns, hpm⟩
        exact children_edge_parents_nonempty rooms hc hpm
  · intro r hr
    rcases List.mem_map.mp hr with ⟨e, hmem0, hfst⟩
    have heq : e = (r, e.2) := by rw [← hfst]
    have hmem : (r, e.2) ∈ rooms := heq ▸ hmem0
    by_cases hpm : dget (parents_map rooms) r = []
    · by_cases hsp : e.2.room_type = some "m.space"
      · refine Or.inl ⟨(mem_top_level_iff rooms r).mpr ⟨e.2, hmem, hsp, hpm⟩,
          ?_, hpm⟩
        intro horph
        rcases (mem_orphans_iff rooms r).mp horph with ⟨room2, hm2, hns, -⟩
        exact hns (by rw [keys_nodup_eq hnd hm2 hmem]; exact hsp)
      · refine Or.inr (Or.inl ⟨?_,
          (mem_orphans_iff rooms r).mpr ⟨e.2, hmem, hsp, hpm⟩, hpm⟩)
        intro htop
        rcases (mem_top_level_iff rooms r).mp htop with ⟨room2, hm2, hsp2, -⟩
        exact hsp (by rw [keys_nodup_eq hnd hmem hm2]; exact hsp2)
    · refine Or.inr (Or.inr ⟨?_, ?_, hpm⟩)
      · intro htop
        rcases (mem_top_level_iff rooms r).mp htop with ⟨-, -, -, h⟩
        exact hpm h
      · intro horph
        rcases (mem_orphans_iff rooms r).mp horph with ⟨-, -, -, h⟩
        exact hpm h

/-- C1 witness: on the two-room fixture, the partition theorem classifies
the parent room as an orphan. -/
theorem hierarchy_three_way_partition_witness :
    ("!a:x" ∈ (get_hierarchy snapA).top_level_spaces ∧
      "!a:x" ∉ (get_hierarchy snapA).orphans ∧
      dget (parents_map snapA) "!a:x" = []) ∨
    ("!a:x" ∉ (get_hierarchy snapA).top_level_spaces ∧
      "!a:x" ∈ (get_hierarchy snapA).orphans ∧
      dget (parents_map snapA) "!a:x" = []) ∨
    ("!a:x" ∉ (get_hierarchy snapA).top_level_spaces ∧
      "!a:x" ∉ (get_hierarchy snapA).orphans ∧
      dget (parents_map snapA) "!a:x" ≠ []) :=
  (hierarchy_three_way_partition snapA (by decide)).2 "!a:x" (by decide)

/-- C1 counterexample: on `snapA` the joined room `!b:x` is neither an
orphan nor reachable via the children mapping from any top-level space
(there are none), so the claimed two-class partition misses it. -/
theorem hierarchy_two_class_partition_fails :
    "!b:x" ∈ joined_ids snapA ∧
    "!b:x" ∉ (get_hierarchy snapA).orphans ∧
    ¬ ∃ s, s ∈ (get_hierarchy snapA).top_level_spaces ∧
        Reaches (get_hierarchy snapA).children s "!b:x" := by
  refine ⟨by decide, by decide, ?_⟩
  rintro ⟨s, hs, -⟩
  have h0 : (get_hierarchy snapA).top_level_spaces = [] := by decide
  rw [h0] at hs
  cases hs

/-- C5: if joined room `A` declares joined room `B` among its children,
then `B` is listed under `A` in the computed children mapping and `B` is
not an orphan — with no assumption on `B`'s own parent list, i.e. the
relation is the union of both declared directions. -/
theorem children_union_bidirectional (rooms : RoomSnapshot)
    (hnd : (joined_ids rooms).Nodup) {A B : String} {rA : Room}
    (hA : (A, rA) ∈ rooms) (hB : B ∈ rA.children)
    (hBj : B ∈ joined_ids rooms) :
    B ∈ dget (get_hierarchy rooms).children A ∧
    B ∉ (get_hierarchy rooms).orphans := by
  obtain ⟨l1, l2, hsplit⟩ := List.append_of_mem hA
  have hA2 : ∀ e ∈ l2, e.1 ≠ A := by
    intro e he heA
    have hnd2 : ((A, rA) :: l2).map Prod.fst |>.Nodup := by
      have := hnd
      rw [hsplit] at this
      unfold joined_ids at this
      rw [List.map_append] at this
      exact this.of_append_right
    rw [List.map_cons, List.nodup_cons] at hnd2
    refine hnd2.1 ?_
    rw [← heA]
    exact List.mem_map.mpr ⟨e, he, rfl⟩
  have hfold : rawMaps rooms =
      l2.foldl (processRoom (joined_ids rooms))
        (processRoom (joined_ids rooms)
          (l1.foldl (processRoom (joined_ids rooms)) ([], [])) (A, rA)) := by
    unfold rawMaps
    rw [hsplit, List.foldl_append, List.foldl_cons]
  have hvcB : B ∈ rA.children.filter
      (fun cid => (joined_ids rooms).contains cid) := by
    refine List.mem_filter.mpr ⟨hB, ?_⟩
    simp [List.contains, hBj]
  have hne : ¬ ((rA.children.filter
      (fun cid => (joined_ids rooms).contains cid)).isEmpty = true) := by
    intro hemp
    rw [List.isEmpty_iff] at hemp
    rw [hemp] at hvcB
    cases hvcB
  have hcm1 : B ∈ dget (processRoom (joined_ids rooms)
      (l1.foldl (processRoom (joined_ids rooms)) ([], [])) (A, rA)).1 A := by
    rw [processRoom_eq]
    apply cm_mem_parentsFold
    rw [if_neg hne]
    show B ∈ dget (dinsert (l1.foldl (processRoom (joined_ids rooms)) ([], [])).1
      A (rA.children.filter (fun cid => (joined_ids rooms).contains cid))) A
    rw [dget_dinsert, if_pos rfl]
    exact hvcB
  have hpm1 : dget (processRoom (joined_ids rooms)
      (l1.foldl (processRoom (joined_ids rooms)) ([], [])) (A, rA)).2 B ≠ [] := by
    rw [processRoom_eq]
    apply pm_nonempty_parentsFold
    rw [if_neg hne]
    show dget ((rA.children.filter
        (fun cid => (joined_ids rooms).contains cid)).foldl
      (fun pm cid => dappend pm cid A)
      (l1.foldl (processRoom (joined_ids rooms)) ([], [])).2) B ≠ []
    exact pm_mem_foldAppend _ _ _ _ hvcB
  have hcm : B ∈ dget (rawMaps rooms).1 A := by
    rw [hfold]
    exact foldl_cm_preserve (joined_ids rooms) l2 _ hA2 hcm1
  have hpm : dget (rawMaps rooms).2 B ≠ [] := by
    rw [hfold]
    exact foldl_pm_preserve (joined_ids rooms) l2 _ hpm1
  refine ⟨(mem_hierarchy_children rooms A B).mpr hcm, ?_⟩
  intro horph
  rcases (mem_orphans_iff rooms B).mp horph with ⟨room2, -, -, hpmB⟩
  rw [dget_parents_map] at hpmB
  exact hpm ((List.dedup_eq_nil _).mp hpmB)

/-- C5 witness: on the fixture, `!b:x` appears under `!a:x` and is not an
orphan although its own parent list is empty. -/
theorem children_union_bidirectional_witness :
    "!b:x" ∈ dget (get_hierarchy snapA).children "!a:x" ∧
    "!b:x" ∉ (get_hierarchy snapA).orphans :=
  children_union_bidirectional snapA (by decide)
    (List.mem_cons_self _ _) (by decide) (by decide)

/-- C6: the top-level list, the orphan list, and every children list are
sorted under the case-folded display-name key (falling back to the room
id), and `get_hierarchy` is a pure function of the snapshot, so a second
run on the unchanged snapshot yields the identical output. -/
theorem hierarchy_sorted_deterministic (rooms : RoomSnapshot) :
    List.Sorted (hierLE rooms) (get_hierarchy rooms).top_level_spaces ∧
    List.Sorted (hierLE rooms) (get_hierarchy rooms).orphans ∧
    (∀ p vs, List.lookup p (get_hierarchy rooms).children = some vs →
      List.Sorted (hierLE rooms) vs) ∧
    get_hierarchy rooms = get_hierarchy rooms := by
  haveI := hierLE_isTotal rooms
  haveI := hierLE_isTrans rooms
  refine ⟨List.sorted_insertionSort _ _, List.sorted_insertionSort _ _, ?_, rfl⟩
  intro p vs h
  have hrep : (get_hierarchy rooms).children =
      ((rawMaps rooms).1.map (fun e => (e.1, e.2.dedup))).map
        (fun e => (e.1, e.2.insertionSort (hierLE rooms))) := rfl
  rw [hrep, lookup_mapval] at h
  rcases Option.map_eq_some'.mp h with ⟨vs0, hvs0, hsort⟩
  rw [← hsort]
  exact List.sorted_insertionSort _ _

/-- C6 witness: the children list computed for `!a:x` on the fixture is
sorted. -/
theorem hierarchy_sorted_deterministic_witness :
    List.Sorted (hierLE snapA) ["!b:x"] :=
  (hierarchy_sorted_deterministic snapA).2.2.1 "!a:x" ["!b:x"] (by decide)

end OmoMatrix
